import Mathlib

/-!
Verification of the "Control de Gastos" personal ledger application.

The source file holds two variants of the app: a legacy one (an `expenses`
collection plus an income scalar in a `meta` store) and a unified one (a
single `transactions` collection with a `type` discriminant).  Both are
embedded below, the unified variant in namespace `Unified` and the legacy
one in namespace `Legacy`; shared helpers (string comparison, rounding,
calendar arithmetic) sit at the top of the `Gastos` namespace.

Modelling conventions:
* JS strings are Lean `String`s; JS string comparison (`<`, and
  `localeCompare` on ASCII digit strings such as ISO dates) is the
  structural lexicographic comparison `strLt` on the character list.
* JS numbers entering `parseAmount` are modelled as `Option ℚ`: `none`
  stands for a non-finite `Number(...)` result (NaN or ±Infinity), `some q`
  for a finite value.  `Math.round` on a non-negative value is
  `⌊q + 1/2⌋`, computed arithmetically as `jsRound0`.
* Stored amounts are `Nat`: `parseAmount` only ever produces a
  non-negative integer.
* IndexedDB object stores are lists of records plus an auto-increment
  counter (IndexedDB key generators start at 1 and never reuse keys).
* Timestamps are `Int` milliseconds since the Unix epoch.  A runtime
  environment is characterised by its UTC offset `off` in milliseconds
  (local wall-clock = UTC + off).  `new Date(y, m, d, h, mi, s, ms)`
  (local) and `new Date("YYYY-MM-DD")` (parsed as UTC midnight per the
  ECMAScript date-time string format) are both mapped to epoch days via
  the standard civil-from-days algorithm `daysFromCivil`.
-/

namespace Gastos

/-! ## Generic JS-modelling helpers -/

/-- Lexicographic comparison of character lists; models JS string
comparison (`<` and `localeCompare` on ASCII strings such as ISO dates). -/
def charListLt : List Char → List Char → Bool
  | [], [] => false
  | [], _ :: _ => true
  | _ :: _, [] => false
  | a :: as, b :: bs => if a < b then true else if b < a then false else charListLt as bs

/-- `strLt a b` models `a < b` (equivalently `a.localeCompare(b) < 0`) for
the ASCII date strings this app compares. -/
def strLt (a b : String) : Bool := charListLt a.data b.data

/-- Non-strict string comparison. -/
def strLe (a b : String) : Bool := strLt a b || decide (a = b)

/-- ASCII whitespace test used by `jsTrim`. -/
def isWs (c : Char) : Bool := c == ' ' || c == '\t' || c == '\n' || c == '\r'

/-- Trim leading and trailing whitespace from a character list. -/
def trimChars (cs : List Char) : List Char :=
  (((cs.dropWhile isWs).reverse).dropWhile isWs).reverse

/-- Models `String.prototype.trim()` (restricted to ASCII whitespace,
which is all this development needs). -/
def jsTrim (s : String) : String := ⟨trimChars s.data⟩

/-- `Math.round q` for a non-negative rational `q`, i.e. `⌊q + 1/2⌋`,
computed arithmetically on the numerator and denominator so that it
evaluates by kernel reduction. -/
def jsRound0 (q : ℚ) : Nat := ((2 * q.num + (q.den : Int)) / ((2 * q.den : Nat) : Int)).toNat

/-- `Math.round((a / b) * 100)` for natural `a` and positive natural `b`:
`⌊100·a/b + 1/2⌋ = (200·a + b) / (2·b)` in natural division. -/
def jsRoundPct (a b : Nat) : Nat := (200 * a + b) / (2 * b)

/-- Insertion into a list sorted by the boolean comparator `le`. -/
def insertBy (le : α → α → Bool) (x : α) : List α → List α
  | [] => [x]
  | y :: l => if le x y then x :: y :: l else y :: insertBy le x l

/-- Insertion sort by the boolean comparator `le`; models
`Array.prototype.sort` with a total comparator (comparators in this app
are total orders, so the result is the unique sorted arrangement). -/
def sortBy (le : α → α → Bool) : List α → List α
  | [] => []
  | x :: l => insertBy le x (sortBy le l)

/-! ## Calendar arithmetic -/

/-- Year adjusted so that the year starts in March (Howard Hinnant's
civil-from-days convention). -/
def civilYear (y m : Int) : Int := if m ≤ 2 then y - 1 else y

/-- Days from the Unix epoch (1970-01-01) of the civil date `(y, m, d)`
with `m` 1-based; the standard days-from-civil algorithm.  The formula is
linear in `d`, which makes it model the ECMAScript `Date` day-overflow
normalisation (`d = 0` is the last day of the previous month). -/
def daysFromCivil (y m d : Int) : Int :=
  (civilYear y m) / 400 * 146097
  + ((civilYear y m) - (civilYear y m) / 400 * 400) * 365
  + ((civilYear y m) - (civilYear y m) / 400 * 400) / 4
  - ((civilYear y m) - (civilYear y m) / 400 * 400) / 100
  + (153 * (if m ≤ 2 then m + 9 else m - 3) + 2) / 5
  + d - 1
  - 719468

/-- Gregorian leap-year rule. -/
def leapYear (y : Int) : Bool := (y % 4 == 0 && y % 100 != 0) || (y % 400 == 0)

/-- Number of days of 1-based month `m1` of year `y`. -/
def monthLen (y m1 : Int) : Int :=
  if m1 = 2 then (if leapYear y then 29 else 28)
  else if m1 = 4 ∨ m1 = 6 ∨ m1 = 9 ∨ m1 = 11 then 30 else 31

/-- Epoch days of `new Date(y, mIdx, d)` where `mIdx` is the 0-based JS
month index (the app passes `mIdx` up to 12 and `d` down to 0, relying on
`Date`'s field normalisation, which this definition reproduces). -/
def jsDays (y mIdx d : Int) : Int :=
  daysFromCivil (y + mIdx / 12) (mIdx % 12 + 1) 1 + (d - 1)

/-- Epoch-milliseconds timestamp of the local wall-clock instant given by
`new Date(y, mIdx, d)` plus `timeMs` milliseconds into the day, in an
environment whose UTC offset is `off` milliseconds. -/
def localTs (y mIdx d timeMs off : Int) : Int :=
  jsDays y mIdx d * 86400000 + timeMs - off

/-- Value of a list of ASCII digits. -/
def digitsVal (cs : List Char) : Nat :=
  cs.foldl (fun n c => n * 10 + (c.toNat - 48)) 0

/-- Models `new Date(dateISO).getTime()` for a well-formed `YYYY-MM-DD`
string: per the ECMAScript date-time string format, a date-only string is
parsed as midnight UTC of that calendar day. -/
def parseISO (s : String) : Int :=
  daysFromCivil (digitsVal (s.data.take 4)) (digitsVal ((s.data.drop 5).take 2))
    (digitsVal ((s.data.drop 8).take 2)) * 86400000

/-- Spec-side description of a window boundary: the UTC timestamp of
local midnight of the civil date `(y, m1, dd)` (`m1` 1-based) in an
environment with UTC offset `off`. -/
def dayStartTs (y m1 dd off : Int) : Int := daysFromCivil y m1 dd * 86400000 - off

/-! ## Shared data shapes -/

/-- Result of a JS function that may throw. -/
inductive JsOutcome (α : Type) where
  | ok : α → JsOutcome α
  | thrown : String → JsOutcome α
  deriving DecidableEq

/-- Discriminant of the unified transaction model. -/
inductive TxType where
  | expense
  | income
  deriving DecidableEq

/-- A reference from a transaction to a stored attachment
(`{ storeId, kind, name, type }` in the source). -/
structure AttachRef where
  storeId : Nat
  kind : String
  name : String
  mime : String
  deriving DecidableEq

/-- An input file picked in the form (blob plus metadata). -/
structure FileIn where
  blob : List Nat
  name : String
  mime : String
  deriving DecidableEq

/-- A record of the `attachments` object store. -/
structure Attachment where
  id : Nat
  blob : List Nat
  name : String
  mime : String
  created : Nat
  deriving DecidableEq

/-- The `attachments` object store (`keyPath: 'id'`, `autoIncrement`). -/
structure AttStore where
  records : List Attachment
  nextId : Nat
  deriving DecidableEq

/-- `dbp.add('attachments', { blob, name, type, created })`: the key
generator assigns the next id and the record is stored with that id. -/
def AttStore.add (s : AttStore) (f : FileIn) (now : Nat) : AttStore × Nat :=
  ({ records := s.records ++ [⟨s.nextId, f.blob, f.name, f.mime, now⟩],
     nextId := s.nextId + 1 }, s.nextId)

/-- `dbp.get('attachments', key)`. -/
def AttStore.get (s : AttStore) (id : Nat) : Option Attachment :=
  s.records.find? (fun a => decide (a.id = id))

/-- `parseAmount(input)`: `Number(input.value)` modelled as `Option ℚ`
(`none` = non-finite).  A finite non-negative value is rounded to the
nearest integer; anything else maps to 0. -/
def parseAmount (v : Option ℚ) : Nat :=
  match v with
  | none => 0
  | some q => if 0 ≤ q then jsRound0 q else 0

end Gastos

namespace Gastos.Unified

open Gastos

/-- A record of the unified `transactions` store. -/
structure Tx where
  id : Nat
  type : TxType
  name : String
  amount : Nat
  date : String
  attachments : List AttachRef
  created : Nat
  deriving DecidableEq

/-- The `transactions` object store (`keyPath: 'id'`, `autoIncrement`). -/
structure TxStore where
  records : List Tx
  nextId : Nat
  deriving DecidableEq

/-- `dbp.add('transactions', tx)`: the key generator assigns the next id
(injected into the record via the `id` key path) and returns it. -/
def TxStore.add (s : TxStore) (mk : Nat → Tx) : TxStore × Nat :=
  ({ records := s.records ++ [mk s.nextId], nextId := s.nextId + 1 }, s.nextId)

/-- `dbp.get('transactions', key)`. -/
def TxStore.get (s : TxStore) (id : Nat) : Option Tx :=
  s.records.find? (fun t => decide (t.id = id))

/-- `dbp.put('transactions', tx)`: replace the record with the same key,
or insert if absent. -/
def TxStore.put (s : TxStore) (t : Tx) : TxStore :=
  if s.records.any (fun r => decide (r.id = t.id)) then
    { s with records := s.records.map (fun r => if r.id = t.id then t else r) }
  else
    { s with records := s.records ++ [t] }

/-- `dbp.delete('transactions', key)` (deleting a missing key succeeds). -/
def TxStore.del (s : TxStore) (id : Nat) : TxStore :=
  { s with records := s.records.filter (fun t => decide (t.id ≠ id)) }

/-- Comparator `(a, b) => b.date.localeCompare(a.date) || b.id - a.id`:
date descending, id descending as tie-break. -/
def txLe (a b : Tx) : Bool :=
  strLt b.date a.date || (decide (b.date = a.date) && decide (b.id ≤ a.id))

/-- `txs.sort((a, b) => b.date.localeCompare(a.date) || b.id - a.id)`. -/
def sortTxs (l : List Tx) : List Tx := sortBy txLe l

/-- The in-memory mirror is sorted by `(date desc, id desc)`. -/
def txsSorted (l : List Tx) : Prop := l.Pairwise (fun a b => txLe a b = true)

/-- The in-memory application state of the unified variant
(`state.txs`, `state.editId`) together with the two object stores. -/
structure App where
  txStore : TxStore
  attStore : AttStore
  txs : List Tx
  editId : Option Nat
  deriving DecidableEq

/-- `loadAll()`: read all transactions and sort them into the mirror. -/
def loadAll (txStore : TxStore) (attStore : AttStore) : App :=
  { txStore := txStore, attStore := attStore,
    txs := sortTxs txStore.records, editId := none }

/-- `incomeSum` of `computeAndRender`. -/
def incomeSum (txs : List Tx) : Nat :=
  (txs.filter (fun t => decide (t.type = TxType.income))).foldl (fun s t => s + t.amount) 0

/-- `expenseSum` of `computeAndRender`. -/
def expenseSum (txs : List Tx) : Nat :=
  (txs.filter (fun t => decide (t.type = TxType.expense))).foldl (fun s t => s + t.amount) 0

/-- `available = incomeSum - expenseSum` (not clamped). -/
def available (txs : List Tx) : Int := (incomeSum txs : Int) - (expenseSum txs : Int)

/-- `ratio = incomeSum > 0 ? Math.min(100, Math.round((expenseSum / incomeSum) * 100)) : 0`. -/
def ratioPct (txs : List Tx) : Nat :=
  if 0 < incomeSum txs then min 100 (jsRoundPct (expenseSum txs) (incomeSum txs)) else 0

/-- `within(dateISO, start, end)`: parse the date string and compare the
resulting timestamp against the window boundaries, both inclusive. -/
def within (dateISO : String) (startTs endTs : Int) : Bool :=
  decide (startTs ≤ parseISO dateISO) && decide (parseISO dateISO ≤ endTs)

/-- Period sum of `computeAndRender`: `sumRange(rg)` filters to expense
transactions whose date is within the window and sums the amounts. -/
def sumRange (txs : List Tx) (rg : Int × Int) : Nat :=
  (txs.filter (fun t => decide (t.type = TxType.expense) && within t.date rg.1 rg.2)).foldl
    (fun s t => s + t.amount) 0

/-- The four period windows produced by `ranges()`, each as
`(start, end)` timestamps. -/
structure RangeSet where
  today : Int × Int
  week : Int × Int
  fortnight : Int × Int
  month : Int × Int
  deriving DecidableEq

/-- `ranges()`, as a function of the current local calendar date:
`y` = `now.getFullYear()`, `m` = `now.getMonth()` (0-based),
`d` = `now.getDate()`, in an environment with UTC offset `off` ms. -/
def ranges (y m d off : Int) : RangeSet :=
  { today := (localTs y m d 0 off, localTs y m d 86399999 off)
    week := (localTs y m (d - 6) 0 off, localTs y m d 86399999 off)
    fortnight :=
      if d ≤ 15 then (localTs y m 1 0 off, localTs y m 15 86399999 off)
      else (localTs y m 16 0 off, localTs y (m + 1) 0 86399999 off)
    month := (localTs y m 1 0 off, localTs y (m + 1) 0 86399999 off) }

/-- Contribution of a transaction to its date's histogram bucket:
`t.type === 'expense' ? t.amount : 0`. -/
def expAmt (t : Tx) : Nat := if t.type = TxType.expense then t.amount else 0

/-- One step of the `Map`-building loop of `groupByDate`: add `v` into
the entry for key `k`, appending a fresh entry if the key is new
(JS `Map`s preserve insertion order). -/
def upsert : List (String × Nat) → String → Nat → List (String × Nat)
  | [], k, v => [(k, v)]
  | (k1, v1) :: rest, k, v =>
      if k1 = k then (k1, v1 + v) :: rest else (k1, v1) :: upsert rest k v

/-- Comparator `(a, b) => a[0].localeCompare(b[0])`: key ascending. -/
def pairLe (p q : String × Nat) : Bool := strLt p.1 q.1 || decide (p.1 = q.1)

/-- `groupByDate(txs)` of the unified variant: every transaction
contributes an entry for its date, but only expense amounts are added
(income transactions contribute 0); entries are sorted by date
ascending. -/
def groupByDate (txs : List Tx) : List (String × Nat) :=
  sortBy pairLe (txs.foldl (fun m t => upsert m t.date (expAmt t)) [])

/-- `values = byDate.map(([, v]) => v)` of `renderMiniChart`. -/
def chartValues (txs : List Tx) : List Nat := (groupByDate txs).map Prod.snd

/-- `max = Math.max(1, ...values)`: over all grouped values, before the
14-point window is cut. -/
def chartMax (txs : List Tx) : Nat := (chartValues txs).foldl max 1

/-- `last14 = byDate.slice(-14)`: the most recent 14 grouped points. -/
def last14 (txs : List Tx) : List (String × Nat) :=
  (groupByDate txs).drop ((groupByDate txs).length - 14)

/-- Bar heights of `renderMiniChart`:
`Math.max(4, Math.round((v / max) * 100))` for each visible point. -/
def barHeights (txs : List Tx) : List Nat :=
  (last14 txs).map (fun p => max 4 (jsRoundPct p.2 (chartMax txs)))

/-- `onAddTx`: validate (trimmed name non-empty, amount strictly
positive), then persist the attachments, then insert the transaction and
prepend it to the mirror (`state.txs.unshift(tx)` — no re-sort). -/
def onAddTx (st : App) (typ : TxType) (nameIn : String) (amountIn : Option ℚ)
    (dateIn today : String) (photo docf : Option FileIn) (now : Nat) : App :=
  let name := jsTrim nameIn
  let amount := parseAmount amountIn
  let date := if dateIn = "" then today else dateIn
  if name = "" ∨ amount = 0 then st else
  let s1 : AttStore × List AttachRef := match photo with
    | none => (st.attStore, [])
    | some f =>
        let r := st.attStore.add f now
        (r.1, [⟨r.2, "photo", f.name, f.mime⟩])
  let s2 : AttStore × List AttachRef := match docf with
    | none => (s1.1, s1.2)
    | some f =>
        let r := s1.1.add f now
        (r.1, s1.2 ++ [⟨r.2, "document", f.name, f.mime⟩])
  let r3 := st.txStore.add (fun i => ⟨i, typ, name, amount, date, s2.2, now⟩)
  { txStore := r3.1, attStore := s2.1,
    txs := ⟨r3.2, typ, name, amount, date, s2.2, now⟩ :: st.txs,
    editId := st.editId }

/-- Modelled from the spec: the tail of `updateTx` (truncated in the
source after the record is fetched and its fields overwritten).  Per §4.3
of the spec, newly supplied files are persisted and replace the
attachment list entirely, the record is rewritten via `put`, and the
mirror is refreshed (replaced in place and kept sorted, as the legacy
`updateExpense` does). -/
def updateTxCommit (st : App) (tx : Tx) (typ : TxType) (name : String) (amount : Nat)
    (date : String) (photo docf : Option FileIn) (now : Nat) : App :=
  let s1 : AttStore × List AttachRef := match photo with
    | none => (st.attStore, [])
    | some f =>
        let r := st.attStore.add f now
        (r.1, [⟨r.2, "photo", f.name, f.mime⟩])
  let s2 : AttStore × List AttachRef := match docf with
    | none => (s1.1, s1.2)
    | some f =>
        let r := s1.1.add f now
        (r.1, s1.2 ++ [⟨r.2, "document", f.name, f.mime⟩])
  let refs := if photo = none ∧ docf = none then tx.attachments else s2.2
  let tx1 : Tx := { tx with type := typ, name := name, amount := amount,
                            date := date, attachments := refs }
  { txStore := st.txStore.put tx1, attStore := s2.1,
    txs := sortTxs (st.txs.map (fun t => if t.id = tx1.id then tx1 else t)),
    editId := st.editId }

/-- `updateTx`: no-op unless a record is staged for edit; validate; fetch
the staged record by id — when the id is missing, `dbp.get` resolves with
`undefined` and the subsequent field assignment `tx.type = type` throws a
`TypeError` (modelled as `JsOutcome.thrown`). -/
def updateTx (st : App) (typ : TxType) (nameIn : String) (amountIn : Option ℚ)
    (dateIn today : String) (photo docf : Option FileIn) (now : Nat) : JsOutcome App :=
  match st.editId with
  | none => JsOutcome.ok st
  | some eid =>
    let name := jsTrim nameIn
    let amount := parseAmount amountIn
    let date := if dateIn = "" then today else dateIn
    if name = "" ∨ amount = 0 then JsOutcome.ok st else
    match st.txStore.get eid with
    | none => JsOutcome.thrown "TypeError"
    | some tx => JsOutcome.ok (updateTxCommit st tx typ name amount date photo docf now)

end Gastos.Unified

namespace Gastos.Legacy

open Gastos

/-- A record of the legacy `expenses` store (no `type` discriminant). -/
structure Tx where
  id : Nat
  name : String
  amount : Nat
  date : String
  attachments : List AttachRef
  created : Nat
  deriving DecidableEq

/-- The legacy `expenses` object store (`keyPath: 'id'`, `autoIncrement`). -/
structure TxStore where
  records : List Tx
  nextId : Nat
  deriving DecidableEq

/-- `dbp.add('expenses', expense)`. -/
def TxStore.add (s : TxStore) (mk : Nat → Tx) : TxStore × Nat :=
  ({ records := s.records ++ [mk s.nextId], nextId := s.nextId + 1 }, s.nextId)

/-- `dbp.get('expenses', key)`. -/
def TxStore.get (s : TxStore) (id : Nat) : Option Tx :=
  s.records.find? (fun t => decide (t.id = id))

/-- `dbp.put('expenses', e)`. -/
def TxStore.put (s : TxStore) (t : Tx) : TxStore :=
  if s.records.any (fun r => decide (r.id = t.id)) then
    { s with records := s.records.map (fun r => if r.id = t.id then t else r) }
  else
    { s with records := s.records ++ [t] }

/-- `dbp.delete('expenses', key)`. -/
def TxStore.del (s : TxStore) (id : Nat) : TxStore :=
  { s with records := s.records.filter (fun t => decide (t.id ≠ id)) }

/-- Comparator `(a, b) => b.date.localeCompare(a.date) || b.id - a.id`. -/
def txLe (a b : Tx) : Bool :=
  strLt b.date a.date || (decide (b.date = a.date) && decide (b.id ≤ a.id))

/-- `expenses.sort((a, b) => b.date.localeCompare(a.date) || b.id - a.id)`. -/
def sortTxs (l : List Tx) : List Tx := sortBy txLe l

/-- The legacy in-memory mirror is sorted by `(date desc, id desc)`. -/
def txsSorted (l : List Tx) : Prop := l.Pairwise (fun a b => txLe a b = true)

/-- The in-memory application state of the legacy variant
(`state.expenses`, `state.income`, `state.editId`) plus the stores. -/
structure App where
  store : TxStore
  attStore : AttStore
  expenses : List Tx
  income : Nat
  editId : Option Nat
  deriving DecidableEq

/-- Legacy `loadAll()`: read all expenses, sort them into the mirror and
read the income scalar from the `meta` store. -/
def loadAll (store : TxStore) (attStore : AttStore) (metaIncome : Nat) : App :=
  { store := store, attStore := attStore,
    expenses := sortTxs store.records, income := metaIncome, editId := none }

/-- `updateExpense`: no-op unless `state.editId` is set; validate; fetch
the staged record — on a missing id `dbp.get` resolves with `undefined`
and `e.name = name` throws a `TypeError`.  Otherwise overwrite the
mutable fields, `put` the record, splice it into the mirror and re-sort. -/
def updateExpense (st : App) (nameIn : String) (amountIn : Option ℚ)
    (dateIn today : String) : JsOutcome App :=
  match st.editId with
  | none => JsOutcome.ok st
  | some eid =>
    let name := jsTrim nameIn
    let amount := parseAmount amountIn
    let date := if dateIn = "" then today else dateIn
    if name = "" ∨ amount = 0 then JsOutcome.ok st else
    match st.store.get eid with
    | none => JsOutcome.thrown "TypeError"
    | some e =>
      let e1 : Tx := { e with name := name, amount := amount, date := date }
      JsOutcome.ok { st with
        store := st.store.put e1,
        expenses := sortTxs (st.expenses.map (fun t => if t.id = e1.id then e1 else t)) }

/-- `deleteExpense(id)`: delete the record from the `expenses` store and
filter it out of the mirror.  The `attachments` store is not touched. -/
def deleteExpense (st : App) (id : Nat) : App :=
  { st with store := st.store.del id,
            expenses := st.expenses.filter (fun e => decide (e.id ≠ id)) }

/-- Legacy `groupByDate(expenses)`: every expense record adds its amount
into its date's bucket (no discriminant in this variant). -/
def groupByDate (expenses : List Tx) : List (String × Nat) :=
  sortBy Unified.pairLe (expenses.foldl (fun m e => Unified.upsert m e.date e.amount) [])

/-- `values` of the legacy `renderMiniChart(expenses, range)`. -/
def chartValues (expenses : List Tx) : List Nat := (groupByDate expenses).map Prod.snd

/-- `max = Math.max(1, ...values)` of the legacy chart. -/
def chartMax (expenses : List Tx) : Nat := (chartValues expenses).foldl max 1

/-- Bar heights of the legacy `renderMiniChart`: no 14-point cut in this
variant, every grouped point is rendered. -/
def barHeights (expenses : List Tx) : List Nat :=
  (groupByDate expenses).map (fun p => max 4 (jsRoundPct p.2 (chartMax expenses)))

end Gastos.Legacy

namespace Gastos

/-! ## Schema migration -/

/-- Content of the legacy database `gastosDB`: the `expenses` records,
the `attachments` records and the `meta` income scalar. -/
structure LegacyContent where
  expenses : List Legacy.Tx
  attachments : List Attachment
  income : Nat
  deriving DecidableEq

/-- Content of the unified database `gastosDB_v2`. -/
structure UnifiedContent where
  transactions : List Unified.Tx
  attachments : List Attachment
  deriving DecidableEq

/-- The schema upgrade performed when the unified variant first runs, as
a function of whatever the legacy database holds.  The unified
`dbp.open` opens a brand-new database (`gastosDB_v2`, version 1) whose
`onupgradeneeded` handler only calls `createObjectStore`/`createIndex`:
it never opens or reads the legacy `gastosDB`, so the new `transactions`
and `attachments` stores start empty regardless of the legacy content. -/
def upgradeToUnified (_legacy : LegacyContent) : UnifiedContent :=
  { transactions := [], attachments := [] }

/-! ## Concrete fixtures used by scenario evaluations, counterexamples
and witnesses -/

/-- Scenario A income transaction: 500000 on day D. -/
def txIncA : Unified.Tx := ⟨1, TxType.income, "sueldo", 500000, "2024-03-10", [], 0⟩

/-- Scenario A expense transaction: 120000 on day D. -/
def txExpA : Unified.Tx := ⟨2, TxType.expense, "arriendo", 120000, "2024-03-10", [], 0⟩

/-- An expense dated 2024-01-02 already present before the C2 create. -/
def txC2 : Unified.Tx := ⟨1, TxType.expense, "pan", 1000, "2024-01-02", [], 0⟩

/-- App state after loading a store holding `txC2` (next id 2). -/
def appC2 : Unified.App := Unified.loadAll ⟨[txC2], 2⟩ ⟨[], 1⟩

/-- App state after then creating an expense dated one day EARLIER than
`txC2` (the validated-create path of `onAddTx`). -/
def appC2' : Unified.App :=
  Unified.onAddTx appC2 TxType.expense "leche" (some 500) "2024-01-01" "2024-01-05" none none 7

/-- The expense of the C3 failing input: dated the current local
calendar day 2024-03-10, amount 100. -/
def txToday : Unified.Tx := ⟨1, TxType.expense, "cafe", 100, "2024-03-10", [], 0⟩

/-- Scenario B expenses: 1000 and 2000 on 2024-01-01, 3000 on 2024-01-02. -/
def txB1 : Unified.Tx := ⟨1, TxType.expense, "a", 1000, "2024-01-01", [], 0⟩

def txB2 : Unified.Tx := ⟨2, TxType.expense, "b", 2000, "2024-01-01", [], 0⟩

def txB3 : Unified.Tx := ⟨3, TxType.expense, "c", 3000, "2024-01-02", [], 0⟩

/-- An income-only transaction on a date with no expenses. -/
def txIncOnly : Unified.Tx := ⟨1, TxType.income, "sueldo", 500, "2024-01-01", [], 0⟩

/-- Fifteen expenses on fifteen consecutive dates; the OLDEST point holds
the maximum amount (9999), the other fourteen hold 100 each. -/
def txs15 : List Unified.Tx :=
  [⟨1, TxType.expense, "x", 9999, "2024-01-01", [], 0⟩,
   ⟨2, TxType.expense, "x", 100, "2024-01-02", [], 0⟩,
   ⟨3, TxType.expense, "x", 100, "2024-01-03", [], 0⟩,
   ⟨4, TxType.expense, "x", 100, "2024-01-04", [], 0⟩,
   ⟨5, TxType.expense, "x", 100, "2024-01-05", [], 0⟩,
   ⟨6, TxType.expense, "x", 100, "2024-01-06", [], 0⟩,
   ⟨7, TxType.expense, "x", 100, "2024-01-07", [], 0⟩,
   ⟨8, TxType.expense, "x", 100, "2024-01-08", [], 0⟩,
   ⟨9, TxType.expense, "x", 100, "2024-01-09", [], 0⟩,
   ⟨10, TxType.expense, "x", 100, "2024-01-10", [], 0⟩,
   ⟨11, TxType.expense, "x", 100, "2024-01-11", [], 0⟩,
   ⟨12, TxType.expense, "x", 100, "2024-01-12", [], 0⟩,
   ⟨13, TxType.expense, "x", 100, "2024-01-13", [], 0⟩,
   ⟨14, TxType.expense, "x", 100, "2024-01-14", [], 0⟩,
   ⟨15, TxType.expense, "x", 100, "2024-01-15", [], 0⟩]

/-- Legacy content with one expense record and one attachment, fed to the
schema upgrade in the C5 counterexample. -/
def legacyC5 : LegacyContent :=
  { expenses := [⟨1, "pan", 1000, "2024-01-01", [], 0⟩],
    attachments := [⟨1, [7, 7, 7], "boleta.jpg", "image/jpeg", 0⟩],
    income := 300000 }

/-- Unified app whose staged edit id (5) is absent from the store. -/
def appC8 : Unified.App :=
  { txStore := ⟨[txC2], 2⟩, attStore := ⟨[], 1⟩, txs := [txC2], editId := some 5 }

/-- Unified app with an empty store but `editId` unset. -/
def appC8b : Unified.App :=
  { txStore := ⟨[], 1⟩, attStore := ⟨[], 1⟩, txs := [], editId := none }

/-- Two stored attachments referenced by the C9 transaction. -/
def attC9a : Attachment := ⟨1, [1, 2, 3], "boleta.jpg", "image/jpeg", 0⟩

/-- Second stored attachment of the C9 transaction. -/
def attC9b : Attachment := ⟨2, [4, 5], "factura.pdf", "application/pdf", 0⟩

/-- Legacy expense holding references to the two C9 attachments. -/
def txC9 : Legacy.Tx :=
  ⟨1, "super", 25000, "2024-02-01",
   [⟨1, "photo", "boleta.jpg", "image/jpeg"⟩, ⟨2, "document", "factura.pdf", "application/pdf"⟩], 0⟩

/-- Legacy app holding `txC9` and its two attachments. -/
def appC9 : Legacy.App :=
  { store := ⟨[txC9], 2⟩, attStore := ⟨[attC9a, attC9b], 3⟩,
    expenses := [txC9], income := 0, editId := none }

/-- Legacy app used by witnesses for no-op delete. -/
def appC8L : Legacy.App :=
  { store := ⟨[], 1⟩, attStore := ⟨[], 1⟩, expenses := [], income := 0, editId := none }

end Gastos

namespace Gastos

/-! ## Spec-side auxiliary definitions -/

/-- Keys of an association list. -/
def keysOf (m : List (String × Nat)) : List String := m.map Prod.fst

/-- Lookup in an association list. -/
def lookupV (m : List (String × Nat)) (k : String) : Option Nat :=
  (m.find? (fun p => decide (p.1 = k))).map Prod.snd

/-- Spec-side per-date sum: total expense amount of the transactions
dated `d` (income transactions contribute 0). -/
def sumExpOn (txs : List Unified.Tx) (d : String) : Nat :=
  ((txs.filter (fun t => decide (t.date = d))).map Unified.expAmt).sum

end Gastos

namespace Gastos

/-! ## Helper lemmas: string comparison -/

theorem charListLt_irrefl (a : List Char) : charListLt a a = false := by
  induction a with
  | nil => rfl
  | cons x xs ih => simp [charListLt, ih]

theorem charListLt_cons {x y : Char} {xs ys : List Char} :
    charListLt (x :: xs) (y :: ys) = true ↔ (x < y ∨ (x = y ∧ charListLt xs ys = true)) := by
  by_cases h1 : x < y
  · simp [charListLt, h1]
  · by_cases h2 : y < x
    · have hne : x ≠ y := ne_of_gt h2
      simp [charListLt, h1, h2, hne]
    · have hxy : x = y := le_antisymm (not_lt.mp h2) (not_lt.mp h1)
      simp [charListLt, h1, h2, hxy]

theorem charListLt_trans {a b c : List Char} (h1 : charListLt a b = true)
    (h2 : charListLt b c = true) : charListLt a c = true := by
  induction a generalizing b c with
  | nil =>
    cases c with
    | nil =>
      cases b with
      | nil => simp [charListLt] at h1
      | cons y ys => simp [charListLt] at h2
    | cons z zs => simp [charListLt]
  | cons x xs ih =>
    cases b with
    | nil => simp [charListLt] at h1
    | cons y ys =>
      cases c with
      | nil => simp [charListLt] at h2
      | cons z zs =>
        rw [charListLt_cons] at h1 h2 ⊢
        rcases h1 with h1 | ⟨hxy, h1⟩
        · rcases h2 with h2 | ⟨hyz, h2⟩
          · exact Or.inl (lt_trans h1 h2)
          · exact Or.inl (hyz ▸ h1)
        · rcases h2 with h2 | ⟨hyz, h2⟩
          · exact Or.inl (hxy ▸ h2)
          · exact Or.inr ⟨hxy.trans hyz, ih h1 h2⟩

theorem charListLt_asymm {a b : List Char} (h : charListLt a b = true) :
    charListLt b a = false := by
  cases hba : charListLt b a
  · rfl
  · have : charListLt a a = true := charListLt_trans h hba
    rw [charListLt_irrefl] at this
    exact absurd this (Bool.false_ne_true)

theorem charListLt_total (a b : List Char) :
    charListLt a b = true ∨ charListLt b a = true ∨ a = b := by
  induction a generalizing b with
  | nil => cases b <;> simp [charListLt]
  | cons x xs ih =>
    cases b with
    | nil => simp [charListLt]
    | cons y ys =>
      by_cases h1 : x < y
      · left; simp [charListLt, h1]
      · by_cases h2 : y < x
        · right; left; simp [charListLt, h2]
        · have hxy : x = y := le_antisymm (not_lt.mp h2) (not_lt.mp h1)
          subst hxy
          rcases ih ys with h | h | h
          · left; simp [charListLt, h1, h2, h]
          · right; left; simp [charListLt, h1, h2, h]
          · right; right; rw [h]

theorem strEq_of_data {a b : String} (h : a.data = b.data) : a = b := by
  cases a; cases b; exact congrArg String.mk h

theorem strLt_irrefl (a : String) : strLt a a = false := charListLt_irrefl a.data

theorem strLt_asymm {a b : String} (h : strLt a b = true) : strLt b a = false :=
  charListLt_asymm h

theorem strLt_trans {a b c : String} (h1 : strLt a b = true) (h2 : strLt b c = true) :
    strLt a c = true := charListLt_trans h1 h2

theorem strLt_total (a b : String) : strLt a b = true ∨ strLt b a = true ∨ a = b := by
  rcases charListLt_total a.data b.data with h | h | h
  · exact Or.inl h
  · exact Or.inr (Or.inl h)
  · exact Or.inr (Or.inr (strEq_of_data h))

theorem strLt_ne {a b : String} (h : strLt a b = true) : a ≠ b := by
  intro he
  subst he
  rw [strLt_irrefl] at h
  exact Bool.false_ne_true h

/-! ## Helper lemmas: insertion sort -/

theorem mem_insertBy (le : α → α → Bool) (x : α) (l : List α) (a : α) :
    a ∈ insertBy le x l ↔ a = x ∨ a ∈ l := by
  induction l with
  | nil => simp [insertBy]
  | cons y ys ih =>
    by_cases h : le x y = true
    · simp [insertBy, h]
    · simp only [insertBy, if_neg h, List.mem_cons, ih]
      tauto

theorem insertBy_perm (le : α → α → Bool) (x : α) (l : List α) :
    (insertBy le x l).Perm (x :: l) := by
  induction l with
  | nil => simp [insertBy]
  | cons y ys ih =>
    by_cases h : le x y = true
    · simp [insertBy, h]
    · simp only [insertBy, if_neg h]
      exact (ih.cons y).trans (List.Perm.swap x y ys)

theorem sortBy_perm (le : α → α → Bool) (l : List α) : (sortBy le l).Perm l := by
  induction l with
  | nil => simp [sortBy]
  | cons x xs ih => exact (insertBy_perm le x (sortBy le xs)).trans (ih.cons x)

theorem mem_sortBy (le : α → α → Bool) (l : List α) (a : α) :
    a ∈ sortBy le l ↔ a ∈ l := (sortBy_perm le l).mem_iff

theorem pairwise_insertBy (le : α → α → Bool)
    (htot : ∀ a b, le a b = false → le b a = true)
    (htrans : ∀ a b c, le a b = true → le b c = true → le a c = true)
    (x : α) (l : List α) (h : l.Pairwise (fun a b => le a b = true)) :
    (insertBy le x l).Pairwise (fun a b => le a b = true) := by
  induction l with
  | nil => simp [insertBy]
  | cons y ys ih =>
    rcases List.pairwise_cons.mp h with ⟨hy, hys⟩
    by_cases hxy : le x y = true
    · rw [insertBy, if_pos hxy]
      refine List.pairwise_cons.mpr ⟨?_, h⟩
      intro z hz
      rcases List.mem_cons.mp hz with hz | hz
      · exact hz ▸ hxy
      · exact htrans x y z hxy (hy z hz)
    · have hxy' : le x y = false := by
        cases hle : le x y
        · rfl
        · exact absurd hle hxy
      rw [insertBy, if_neg hxy]
      refine List.pairwise_cons.mpr ⟨?_, ih hys⟩
      intro z hz
      rcases (mem_insertBy le x ys z).mp hz with hz | hz
      · exact hz ▸ htot x y hxy'
      · exact hy z hz

theorem sortBy_pairwise (le : α → α → Bool)
    (htot : ∀ a b, le a b = false → le b a = true)
    (htrans : ∀ a b c, le a b = true → le b c = true → le a c = true)
    (l : List α) : (sortBy le l).Pairwise (fun a b => le a b = true) := by
  induction l with
  | nil => simp [sortBy]
  | cons x xs ih => exact pairwise_insertBy le htot htrans x (sortBy le xs) ih

end Gastos

namespace Gastos

/-! ## Helper lemmas: folds and rounding -/

theorem foldl_add_eq {α : Type} (f : α → Nat) (l : List α) (a : Nat) :
    l.foldl (fun s t => s + f t) a = a + (l.map f).sum := by
  induction l generalizing a with
  | nil => simp
  | cons x xs ih => simp [List.foldl_cons, ih (a + f x)]; omega

theorem init_le_foldl_max (l : List Nat) (a : Nat) : a ≤ l.foldl max a := by
  induction l generalizing a with
  | nil => simp
  | cons x xs ih => exact le_trans (le_max_left a x) (ih (max a x))

theorem le_foldl_max (l : List Nat) (a : Nat) : ∀ v ∈ l, v ≤ l.foldl max a := by
  induction l generalizing a with
  | nil => simp
  | cons x xs ih =>
    intro v hv
    rcases List.mem_cons.mp hv with hv | hv
    · subst hv
      exact le_trans (le_max_right a v) (init_le_foldl_max xs (max a v))
    · exact ih (max a x) v hv

theorem jsRound0_eq_floor (q : ℚ) (h : 0 ≤ q) : (jsRound0 q : Int) = ⌊q + 1/2⌋ := by
  have hd : (q.den : ℚ) ≠ 0 := by exact_mod_cast q.den_nz
  have hmul : q * (q.den : ℚ) = q.num := Rat.mul_den_eq_num q
  have h1 : q + 1/2 = (((2 * q.num + (q.den : Int) : Int) : ℚ)) / (((2 * q.den : Nat) : Nat) : ℚ) := by
    rw [eq_div_iff (by push_cast; intro hc; apply hd; linarith)]
    push_cast
    linear_combination 2 * hmul
  rw [jsRound0, h1, Rat.floor_intCast_div_natCast, Int.toNat_of_nonneg]
  apply Int.ediv_nonneg
  · have : 0 ≤ q.num := Rat.num_nonneg.mpr h
    omega
  · omega

theorem jsRoundPct_eq_floor (a b : Nat) (hb : 0 < b) :
    jsRoundPct a b = ⌊(a : ℚ) * 100 / (b : ℚ) + 1/2⌋₊ := by
  have hbq : ((b : ℚ)) ≠ 0 := by positivity
  have h1 : (a : ℚ) * 100 / (b : ℚ) + 1/2
      = (((200 * a + b : Nat) : Nat) : ℚ) / (((2 * b : Nat) : Nat) : ℚ) := by
    field_simp
    ring_nf
  rw [h1, Nat.floor_div_nat, Nat.floor_natCast, jsRoundPct]

theorem jsRoundPct_le_100 (a b : Nat) (hb : 0 < b) (hab : a ≤ b) :
    jsRoundPct a b ≤ 100 := by
  rw [jsRoundPct]
  have h : (200 * a + b) / (2 * b) < 101 := by
    rw [Nat.div_lt_iff_lt_mul (by omega)]
    omega
  omega

/-! ## Helper lemmas: the mirror comparators are total orders -/

theorem txLe_tot (a b : Unified.Tx) : Unified.txLe a b = false → Unified.txLe b a = true := by
  intro h
  rw [Unified.txLe] at h ⊢
  rcases strLt_total b.date a.date with hlt | hlt | he
  · simp [hlt] at h
  · simp [hlt]
  · rw [he] at h ⊢
    simp [strLt_irrefl] at h ⊢
    omega

theorem txLe_trans (a b c : Unified.Tx) (h1 : Unified.txLe a b = true)
    (h2 : Unified.txLe b c = true) : Unified.txLe a c = true := by
  rw [Unified.txLe] at h1 h2 ⊢
  simp only [Bool.or_eq_true, Bool.and_eq_true, decide_eq_true_eq] at h1 h2 ⊢
  rcases h1 with h1 | ⟨hbe, hbi⟩
  · rcases h2 with h2 | ⟨hce, hci⟩
    · exact Or.inl (strLt_trans h2 h1)
    · exact Or.inl (hce ▸ h1)
  · rcases h2 with h2 | ⟨hce, hci⟩
    · exact Or.inl (hbe ▸ h2)
    · exact Or.inr ⟨hce.trans hbe, le_trans hci hbi⟩

theorem txLeL_tot (a b : Legacy.Tx) : Legacy.txLe a b = false → Legacy.txLe b a = true := by
  intro h
  rw [Legacy.txLe] at h ⊢
  rcases strLt_total b.date a.date with hlt | hlt | he
  · simp [hlt] at h
  · simp [hlt]
  · rw [he] at h ⊢
    simp [strLt_irrefl] at h ⊢
    omega

theorem txLeL_trans (a b c : Legacy.Tx) (h1 : Legacy.txLe a b = true)
    (h2 : Legacy.txLe b c = true) : Legacy.txLe a c = true := by
  rw [Legacy.txLe] at h1 h2 ⊢
  simp only [Bool.or_eq_true, Bool.and_eq_true, decide_eq_true_eq] at h1 h2 ⊢
  rcases h1 with h1 | ⟨hbe, hbi⟩
  · rcases h2 with h2 | ⟨hce, hci⟩
    · exact Or.inl (strLt_trans h2 h1)
    · exact Or.inl (hce ▸ h1)
  · rcases h2 with h2 | ⟨hce, hci⟩
    · exact Or.inl (hbe ▸ h2)
    · exact Or.inr ⟨hce.trans hbe, le_trans hci hbi⟩

theorem pairLe_tot (p q : String × Nat) :
    Unified.pairLe p q = false → Unified.pairLe q p = true := by
  intro h
  rw [Unified.pairLe] at h ⊢
  rcases strLt_total p.1 q.1 with hlt | hlt | he
  · simp [hlt] at h
  · simp [hlt]
  · simp [he] at h

theorem pairLe_trans (p q r : String × Nat) (h1 : Unified.pairLe p q = true)
    (h2 : Unified.pairLe q r = true) : Unified.pairLe p r = true := by
  rw [Unified.pairLe] at h1 h2 ⊢
  simp only [Bool.or_eq_true, decide_eq_true_eq] at h1 h2 ⊢
  rcases h1 with h1 | h1
  · rcases h2 with h2 | h2
    · exact Or.inl (strLt_trans h1 h2)
    · exact Or.inl (h2 ▸ h1)
  · rcases h2 with h2 | h2
    · exact Or.inl (h1 ▸ h2)
    · exact Or.inr (h1.trans h2)

theorem sortTxs_sorted (l : List Unified.Tx) : Unified.txsSorted (Unified.sortTxs l) :=
  sortBy_pairwise Unified.txLe txLe_tot txLe_trans l

theorem sortTxsL_sorted (l : List Legacy.Tx) : Legacy.txsSorted (Legacy.sortTxs l) :=
  sortBy_pairwise Legacy.txLe txLeL_tot txLeL_trans l

end Gastos

namespace Gastos

/-! ## Helper lemmas: calendar arithmetic -/

theorem daysFromCivil_shift (y m d : Int) :
    daysFromCivil y m d = daysFromCivil y m 1 + (d - 1) := by
  rw [daysFromCivil, daysFromCivil]
  ring_nf

theorem jsDays_eq (y m d : Int) (hm0 : 0 ≤ m) (hm : m ≤ 11) :
    jsDays y m d = daysFromCivil y (m + 1) d := by
  have h1 : m / 12 = 0 := by omega
  have h2 : m % 12 = m := by omega
  rw [jsDays, h1, h2, daysFromCivil_shift y (m + 1) d]
  ring_nf

theorem jsDays_month_end (y m : Int) (hm0 : 0 ≤ m) (hm : m ≤ 11) :
    jsDays y (m + 1) 0 = daysFromCivil y (m + 1) (monthLen y (m + 1)) := by
  interval_cases m
  · -- January: next month February
    rw [jsDays]
    norm_num [monthLen, daysFromCivil, civilYear]
    omega
  · -- February: leap rule
    rw [jsDays]
    norm_num [monthLen]
    rcases h : leapYear y with _ | _ <;>
      simp only [leapYear, Bool.or_eq_true, Bool.and_eq_true, beq_iff_eq, bne_iff_ne, ne_eq,
        Bool.or_eq_false_iff, Bool.and_eq_false_iff, beq_eq_false_iff_ne,
        bne_eq_false_iff_eq, not_not] at h <;>
      simp only [if_true, if_false, Bool.false_eq_true, reduceIte] <;>
      norm_num [daysFromCivil, civilYear] <;>
      omega
  · rw [jsDays]; norm_num [monthLen, daysFromCivil, civilYear]; omega
  · rw [jsDays]; norm_num [monthLen, daysFromCivil, civilYear]; omega
  · rw [jsDays]; norm_num [monthLen, daysFromCivil, civilYear]; omega
  · rw [jsDays]; norm_num [monthLen, daysFromCivil, civilYear]; omega
  · rw [jsDays]; norm_num [monthLen, daysFromCivil, civilYear]; omega
  · rw [jsDays]; norm_num [monthLen, daysFromCivil, civilYear]; omega
  · rw [jsDays]; norm_num [monthLen, daysFromCivil, civilYear]; omega
  · rw [jsDays]; norm_num [monthLen, daysFromCivil, civilYear]; omega
  · rw [jsDays]; norm_num [monthLen, daysFromCivil, civilYear]; omega
  · -- December: year rollover
    rw [jsDays]; norm_num [monthLen, daysFromCivil, civilYear]; omega

end Gastos

namespace Gastos

/-! ## Helper lemmas: histogram grouping -/

theorem keysOf_upsert (m : List (String × Nat)) (k : String) (v : Nat) :
    keysOf (Unified.upsert m k v) = if k ∈ keysOf m then keysOf m else keysOf m ++ [k] := by
  induction m with
  | nil => simp [Unified.upsert, keysOf]
  | cons p rest ih =>
    obtain ⟨k1, v1⟩ := p
    by_cases h : k1 = k
    · subst h
      simp [Unified.upsert, keysOf]
    · have hne : ¬ (k ∈ k1 :: keysOf rest) ↔ ¬ (k ∈ keysOf rest) := by
        simp [Ne.symm h]
      simp only [Unified.upsert, if_neg h, keysOf, List.map_cons] at ih ⊢
      by_cases hm : k ∈ keysOf rest
      · simp only [keysOf] at hm
        simp [hm, ih, Ne.symm h]
      · simp only [keysOf] at hm
        simp [hm, ih, Ne.symm h]

theorem lookupV_cons (k1 : String) (v1 : Nat) (rest : List (String × Nat)) (k : String) :
    lookupV ((k1, v1) :: rest) k = if k1 = k then some v1 else lookupV rest k := by
  by_cases h : k1 = k
  · simp [lookupV, List.find?_cons, h]
  · simp [lookupV, List.find?_cons, h]

theorem lookupV_upsert_self (m : List (String × Nat)) (k : String) (v : Nat) :
    lookupV (Unified.upsert m k v) k = some ((lookupV m k).getD 0 + v) := by
  induction m with
  | nil => simp [Unified.upsert, lookupV_cons, lookupV]
  | cons p rest ih =>
    obtain ⟨k1, v1⟩ := p
    by_cases h : k1 = k
    · subst h
      simp [Unified.upsert, lookupV_cons]
    · simp [Unified.upsert, h, lookupV_cons, ih]

theorem lookupV_upsert_other (m : List (String × Nat)) (k : String) (v : Nat) (k' : String)
    (h : k' ≠ k) : lookupV (Unified.upsert m k v) k' = lookupV m k' := by
  induction m with
  | nil =>
    have hne : ¬ (k = k') := fun he => h he.symm
    simp [Unified.upsert, lookupV_cons, lookupV, hne]
  | cons p rest ih =>
    obtain ⟨k1, v1⟩ := p
    by_cases h1 : k1 = k
    · subst h1
      have hne : ¬ (k1 = k') := fun he => h he.symm
      simp [Unified.upsert, lookupV_cons, hne]
    · by_cases h2 : k1 = k'
      · subst h2
        simp [Unified.upsert, h1, lookupV_cons]
      · simp [Unified.upsert, h1, h2, lookupV_cons, ih]

theorem keysNodup_upsert (m : List (String × Nat)) (k : String) (v : Nat)
    (h : (keysOf m).Nodup) : (keysOf (Unified.upsert m k v)).Nodup := by
  rw [keysOf_upsert]
  by_cases hm : k ∈ keysOf m
  · simpa [hm] using h
  · simp only [if_neg hm]
    simp [List.nodup_append, h, hm]

theorem lookupV_buildFold (txs : List Unified.Tx) (m0 : List (String × Nat)) (k : String) :
    lookupV (txs.foldl (fun m t => Unified.upsert m t.date (Unified.expAmt t)) m0) k
      = if (lookupV m0 k).isSome ∨ k ∈ txs.map Unified.Tx.date
        then some ((lookupV m0 k).getD 0 + sumExpOn txs k)
        else none := by
  induction txs generalizing m0 with
  | nil =>
    cases h : lookupV m0 k <;> simp [sumExpOn, h]
  | cons t rest ih =>
    rw [List.foldl_cons, ih]
    by_cases hk : k = t.date
    · subst hk
      rw [lookupV_upsert_self]
      have hsum : sumExpOn (t :: rest) t.date = Unified.expAmt t + sumExpOn rest t.date := by
        simp [sumExpOn, List.filter_cons]
      have hc2 : t.date ∈ (t :: rest).map Unified.Tx.date := by simp
      rw [if_pos (Or.inl (by simp)), if_pos (Or.inr hc2), hsum]
      simp only [Option.getD_some]
      exact congrArg some (Nat.add_assoc _ _ _)
    · rw [lookupV_upsert_other m0 t.date (Unified.expAmt t) k hk]
      have hdne : ¬ (t.date = k) := fun he => hk he.symm
      have hsum : sumExpOn (t :: rest) k = sumExpOn rest k := by
        simp [sumExpOn, List.filter_cons, hdne]
      have hmem : (k ∈ (t :: rest).map Unified.Tx.date) ↔ (k ∈ rest.map Unified.Tx.date) := by
        simp only [List.map_cons, List.mem_cons]
        constructor
        · rintro (he | hm)
          · exact absurd he hk
          · exact hm
        · exact Or.inr
      simp only [hsum, hmem]

theorem keysNodup_buildFold (txs : List Unified.Tx) (m0 : List (String × Nat))
    (h : (keysOf m0).Nodup) :
    (keysOf (txs.foldl (fun m t => Unified.upsert m t.date (Unified.expAmt t)) m0)).Nodup := by
  induction txs generalizing m0 with
  | nil => exact h
  | cons t rest ih => exact ih _ (keysNodup_upsert m0 t.date (Unified.expAmt t) h)

theorem mem_iff_lookupV (m : List (String × Nat)) (h : (keysOf m).Nodup) (k : String) (v : Nat) :
    (k, v) ∈ m ↔ lookupV m k = some v := by
  induction m with
  | nil => simp [lookupV]
  | cons p rest ih =>
    obtain ⟨k1, v1⟩ := p
    simp only [keysOf, List.map_cons, List.nodup_cons] at h
    rw [lookupV_cons, List.mem_cons]
    by_cases hk : k1 = k
    · subst hk
      have hnr : ∀ w, (k1, w) ∉ rest := by
        intro w hw
        exact h.1 (List.mem_map.mpr ⟨(k1, w), hw, rfl⟩)
      rw [if_pos rfl]
      simp only [Option.some_inj, Prod.mk.injEq, true_and]
      constructor
      · intro hmem
        rcases hmem with he | he
        · exact he.symm
        · exact absurd he (hnr v)
      · intro he
        exact Or.inl he.symm
    · rw [if_neg hk]
      have hne : ¬ ((k, v) = (k1, v1)) := by
        intro he
        exact hk ((Prod.mk.injEq _ _ _ _ |>.mp he).1.symm)
      simp only [hne, false_or]
      exact ih (by
        have := h.2
        simpa [keysOf] using this)

theorem groupByDate_keysNodup (txs : List Unified.Tx) :
    (keysOf (Unified.groupByDate txs)).Nodup := by
  rw [Unified.groupByDate]
  have hperm := (sortBy_perm Unified.pairLe
    (txs.foldl (fun m t => Unified.upsert m t.date (Unified.expAmt t)) [])).map Prod.fst
  rw [keysOf]
  rw [hperm.nodup_iff]
  exact keysNodup_buildFold txs [] (by simp [keysOf])

theorem groupByDate_mem (txs : List Unified.Tx) (d : String) (v : Nat) :
    (d, v) ∈ Unified.groupByDate txs ↔
      (d ∈ txs.map Unified.Tx.date ∧ v = sumExpOn txs d) := by
  rw [Unified.groupByDate, mem_sortBy,
    mem_iff_lookupV _ (keysNodup_buildFold txs [] (by simp [keysOf])) d v,
    lookupV_buildFold]
  have h0 : lookupV [] d = none := by simp [lookupV]
  rw [h0]
  simp only [Option.isSome_none, Bool.false_eq_true, false_or, Option.getD_none, Nat.zero_add]
  by_cases hd : d ∈ txs.map Unified.Tx.date
  · simp [hd, eq_comm]
  · simp [hd]

theorem groupByDate_sorted (txs : List Unified.Tx) :
    (Unified.groupByDate txs).Pairwise (fun p q => strLt p.1 q.1 = true) := by
  have hle : (Unified.groupByDate txs).Pairwise (fun p q => Unified.pairLe p q = true) :=
    sortBy_pairwise Unified.pairLe pairLe_tot pairLe_trans _
  have hnd : (Unified.groupByDate txs).Pairwise (fun p q => p.1 ≠ q.1) := by
    have h1 := groupByDate_keysNodup txs
    rw [keysOf] at h1
    have h2 : List.Pairwise (fun a b => a ≠ b)
        (List.map Prod.fst (Unified.groupByDate txs)) := h1
    exact List.pairwise_map.mp h2
  refine (hle.and hnd).imp ?_
  rintro a b ⟨h1, h2⟩
  rw [Unified.pairLe] at h1
  rcases Bool.or_eq_true _ _ |>.mp h1 with h | h
  · exact h
  · exact absurd (of_decide_eq_true h) h2

end Gastos

namespace Gastos

/-! ## Claim theorems -/

/-- C1: for every transaction list the unified balance satisfies
`available = incomeSum − expenseSum` exactly (sums over the income- and
expense-typed transactions), `available` may be negative and is not
clamped, and `ratio = round(expenseSum / incomeSum · 100)` clamped to
`[0, 100]` with `ratio = 0` when `incomeSum = 0`; in particular one
income of 500000 and one expense of 120000 give `available = 380000` and
`ratio = 24`. -/
theorem C1_balance (txs : List Unified.Tx) :
    Unified.available txs
        = (((txs.filter (fun t => decide (t.type = TxType.income))).map Unified.Tx.amount).sum : Int)
          - (((txs.filter (fun t => decide (t.type = TxType.expense))).map Unified.Tx.amount).sum : Int)
    ∧ (Unified.incomeSum txs = 0 → Unified.ratioPct txs = 0)
    ∧ Unified.ratioPct txs ≤ 100
    ∧ (0 < Unified.incomeSum txs →
        Unified.ratioPct txs
          = min 100 ⌊(Unified.expenseSum txs : ℚ) * 100 / (Unified.incomeSum txs : ℚ) + 1/2⌋₊)
    ∧ Unified.available [txIncA, txExpA] = 380000
    ∧ Unified.ratioPct [txIncA, txExpA] = 24
    ∧ Unified.available [txExpA] = -120000 := by
  refine ⟨?_, ?_, ?_, ?_, by decide, by decide, by decide⟩
  · rw [Unified.available, Unified.incomeSum, Unified.expenseSum, foldl_add_eq, foldl_add_eq]
    simp
  · intro h
    rw [Unified.ratioPct, h]
    simp
  · rw [Unified.ratioPct]
    split
    · exact min_le_left 100 _
    · norm_num
  · intro h
    rw [Unified.ratioPct, if_pos h, jsRoundPct_eq_floor _ _ h]

/-- Witness for C1: the zero-income branch evaluated on the empty list. -/
theorem C1_balance_witness : Unified.incomeSum [] = 0 ∧ Unified.ratioPct [] = 0 :=
  ⟨rfl, (C1_balance []).2.1 rfl⟩

/-- C5 counterexample: legacy content holding one expense record and one
attachment maps, under the unified schema upgrade, to EMPTY transaction
and attachment stores — nothing is preserved, refuting the claim that
every expense record and attachment survives the upgrade. -/
theorem C5_counterexample :
    (upgradeToUnified legacyC5).transactions = []
    ∧ (upgradeToUnified legacyC5).attachments = []
    ∧ legacyC5.expenses.length = 1 ∧ legacyC5.attachments.length = 1 := by
  refine ⟨rfl, rfl, rfl, rfl⟩

/-- C5 (amended): the unified variant performs no migration at all: its
`onupgradeneeded` only creates empty object stores in a brand-new
database (`gastosDB_v2`), never reading the legacy database, so the new
stores start empty regardless of the legacy content (the legacy income
scalar is likewise not converted). -/
theorem C5_upgrade (legacy : LegacyContent) :
    (upgradeToUnified legacy).transactions = [] ∧ (upgradeToUnified legacy).attachments = [] :=
  ⟨rfl, rfl⟩

/-- Witness for C5: the amended upgrade statement evaluated on the
concrete legacy content. -/
theorem C5_upgrade_witness : (upgradeToUnified legacyC5).transactions = [] :=
  (C5_upgrade legacyC5).1

/-- C7: a create whose trimmed name is empty or whose parsed amount is
not strictly positive is rejected before any storage write as a complete
no-op, and the amount parser maps negative and non-finite input to 0
(and equals `⌊q + 1/2⌋` on finite non-negative input), so a negative
amount is never stored. -/
theorem C7_createValidation :
    (∀ (st : Unified.App) (typ : TxType) (nameIn : String) (amountIn : Option ℚ)
        (dateIn today : String) (photo docf : Option FileIn) (now : Nat),
      jsTrim nameIn = "" ∨ parseAmount amountIn = 0 →
      Unified.onAddTx st typ nameIn amountIn dateIn today photo docf now = st)
    ∧ (∀ q : ℚ, q < 0 → parseAmount (some q) = 0)
    ∧ parseAmount none = 0
    ∧ (∀ q : ℚ, 0 ≤ q → (parseAmount (some q) : Int) = ⌊q + 1/2⌋) := by
  refine ⟨?_, ?_, rfl, ?_⟩
  · intro st typ nameIn amountIn dateIn today photo docf now h
    simp only [Unified.onAddTx.eq_def]
    rw [if_pos h]
  · intro q hq
    simp only [parseAmount, if_neg (not_le.mpr hq)]
  · intro q hq
    simp only [parseAmount, if_pos hq]
    exact jsRound0_eq_floor q hq

/-- Witness for C7: an all-blank name and a negative amount, evaluated
concretely. -/
theorem C7_createValidation_witness :
    Unified.onAddTx appC2 TxType.expense "   " (some 5) "2024-01-01" "2024-01-05" none none 3
        = appC2
    ∧ parseAmount (some (-7)) = 0 :=
  ⟨C7_createValidation.1 appC2 TxType.expense "   " (some 5) "2024-01-01" "2024-01-05"
      none none 3 (Or.inl (by decide)),
   C7_createValidation.2.1 (-7) (by decide)⟩

/-- C9: `deleteExpense` removes only the transaction record: the record
disappears from the store and the mirror, while the attachment store is
untouched, so every attachment referenced by the deleted transaction
(here its two refs) stays independently retrievable by its stored id. -/
theorem C9_deleteKeepsAttachments (st : Legacy.App) (tx : Legacy.Tx)
    (r1 r2 : AttachRef) (_hrefs : tx.attachments = [r1, r2]) (a1 a2 : Attachment)
    (h1 : st.attStore.get r1.storeId = some a1) (h2 : st.attStore.get r2.storeId = some a2) :
    tx ∉ (Legacy.deleteExpense st tx.id).store.records
    ∧ tx ∉ (Legacy.deleteExpense st tx.id).expenses
    ∧ (Legacy.deleteExpense st tx.id).attStore = st.attStore
    ∧ (Legacy.deleteExpense st tx.id).attStore.get r1.storeId = some a1
    ∧ (Legacy.deleteExpense st tx.id).attStore.get r2.storeId = some a2 := by
  refine ⟨?_, ?_, rfl, h1, h2⟩
  · intro hmem
    simp [Legacy.deleteExpense, Legacy.TxStore.del, List.mem_filter] at hmem
  · intro hmem
    simp [Legacy.deleteExpense, List.mem_filter] at hmem

/-- Witness for C9: the deletion of `txC9` (two attachments) evaluated
on a concrete application state. -/
theorem C9_witness :
    txC9 ∉ (Legacy.deleteExpense appC9 txC9.id).store.records
    ∧ (Legacy.deleteExpense appC9 txC9.id).attStore.get 1 = some attC9a
    ∧ (Legacy.deleteExpense appC9 txC9.id).attStore.get 2 = some attC9b := by
  have h := C9_deleteKeepsAttachments appC9 txC9
    ⟨1, "photo", "boleta.jpg", "image/jpeg"⟩ ⟨2, "document", "factura.pdf", "application/pdf"⟩
    (by decide) attC9a attC9b (by decide) (by decide)
  exact ⟨h.1, h.2.2.2.1, h.2.2.2.2⟩

/-- C10: the chart normalisation denominator is `max(1, …)` and hence at
least 1 (never a division by zero), and every rendered bar height is an
integer in `[4, 100]` — for every transaction list, including the empty
one and all-zero groupings, in both the unified and the legacy variant. -/
theorem C10_chart (txs : List Unified.Tx) (es : List Legacy.Tx) :
    1 ≤ Unified.chartMax txs
    ∧ (∀ h ∈ Unified.barHeights txs, 4 ≤ h ∧ h ≤ 100)
    ∧ 1 ≤ Legacy.chartMax es
    ∧ (∀ h ∈ Legacy.barHeights es, 4 ≤ h ∧ h ≤ 100) := by
  refine ⟨init_le_foldl_max _ 1, ?_, init_le_foldl_max _ 1, ?_⟩
  · intro h hh
    rw [Unified.barHeights] at hh
    rcases List.mem_map.mp hh with ⟨p, hp, he⟩
    subst he
    refine ⟨le_max_left 4 _, ?_⟩
    have hv : p.2 ≤ Unified.chartMax txs := by
      apply le_foldl_max
      rw [Unified.chartValues]
      refine List.mem_map.mpr ⟨p, ?_, rfl⟩
      rw [Unified.last14] at hp
      exact List.drop_subset _ _ hp
    have h100 : jsRoundPct p.2 (Unified.chartMax txs) ≤ 100 :=
      jsRoundPct_le_100 _ _ (lt_of_lt_of_le Nat.zero_lt_one (init_le_foldl_max _ 1)) hv
    exact max_le (by norm_num) h100
  · intro h hh
    rw [Legacy.barHeights] at hh
    rcases List.mem_map.mp hh with ⟨p, hp, he⟩
    subst he
    refine ⟨le_max_left 4 _, ?_⟩
    have hv : p.2 ≤ Legacy.chartMax es := by
      apply le_foldl_max
      rw [Legacy.chartValues]
      exact List.mem_map.mpr ⟨p, hp, rfl⟩
    have h100 : jsRoundPct p.2 (Legacy.chartMax es) ≤ 100 :=
      jsRoundPct_le_100 _ _ (lt_of_lt_of_le Nat.zero_lt_one (init_le_foldl_max _ 1)) hv
    exact max_le (by norm_num) h100

/-- Witness for C10: a bar of height 100 of the Scenario B chart. -/
theorem C10_chart_witness :
    100 ∈ Unified.barHeights [txB1, txB2, txB3] ∧ 4 ≤ 100 ∧ 100 ≤ 100 :=
  ⟨by decide, (C10_chart [txB1, txB2, txB3] []).2.1 100 (by decide)⟩

end Gastos

namespace Gastos

/-- C2 counterexample: from a loaded store holding one expense dated
2024-01-02, creating a valid expense dated 2024-01-01 (an earlier date)
leaves the in-memory mirror UNSORTED: `onAddTx` prepends the new record
without re-sorting, so the mirror is not sorted by `(date desc, id desc)`
after this mutation. -/
theorem C2_counterexample : ¬ Unified.txsSorted appC2'.txs :=
  ((by decide : ¬ List.Pairwise (fun a b => Unified.txLe a b = true) appC2'.txs) :
    ¬ Unified.txsSorted appC2'.txs)

/-- C2 (amended): the mirror is sorted after the initial load, after
every legacy update that completes, and after every delete; a create
prepends the new record (whose id is fresh and maximal) without
re-sorting, so the mirror stays sorted precisely when the created
record's effective date is at least every date already present — a
create with an earlier date leaves the mirror unsorted. -/
theorem C2_sortInvariant :
    (∀ (ts : Unified.TxStore) (ast : AttStore), Unified.txsSorted (Unified.loadAll ts ast).txs)
    ∧ (∀ (st : Unified.App) (typ : TxType) (nameIn : String) (amountIn : Option ℚ)
        (dateIn today : String) (photo docf : Option FileIn) (now : Nat),
        Unified.txsSorted st.txs →
        (∀ t ∈ st.txs, t.id < st.txStore.nextId) →
        (∀ t ∈ st.txs, strLe t.date (if dateIn = "" then today else dateIn) = true) →
        Unified.txsSorted
          (Unified.onAddTx st typ nameIn amountIn dateIn today photo docf now).txs)
    ∧ (∀ (st : Unified.App) (typ : TxType) (nameIn : String) (amountIn : Option ℚ)
        (dateIn today : String) (photo docf : Option FileIn) (now : Nat),
        jsTrim nameIn ≠ "" → parseAmount amountIn ≠ 0 →
        (∃ t ∈ st.txs, strLt (if dateIn = "" then today else dateIn) t.date = true) →
        ¬ Unified.txsSorted
            (Unified.onAddTx st typ nameIn amountIn dateIn today photo docf now).txs)
    ∧ (∀ (st : Legacy.App) (nameIn : String) (amountIn : Option ℚ) (dateIn today : String)
        (st' : Legacy.App),
        Legacy.txsSorted st.expenses →
        Legacy.updateExpense st nameIn amountIn dateIn today = JsOutcome.ok st' →
        Legacy.txsSorted st'.expenses)
    ∧ (∀ (st : Legacy.App) (id : Nat),
        Legacy.txsSorted st.expenses →
        Legacy.txsSorted (Legacy.deleteExpense st id).expenses) := by
  refine ⟨?_, ?_, ?_, ?_, ?_⟩
  · intro ts ast
    exact sortTxs_sorted ts.records
  · intro st typ nameIn amountIn dateIn today photo docf now hs hid hd
    simp only [Unified.onAddTx.eq_def]
    split
    · exact hs
    · refine List.pairwise_cons.mpr ⟨?_, hs⟩
      intro t ht
      simp only [Unified.txLe, Bool.or_eq_true, Bool.and_eq_true, decide_eq_true_eq]
      rcases Bool.or_eq_true _ _ |>.mp (hd t ht) with hlt | heq
      · exact Or.inl hlt
      · refine Or.inr ⟨of_decide_eq_true heq, ?_⟩
        simp only [Unified.TxStore.add]
        exact le_of_lt (hid t ht)
  · intro st typ nameIn amountIn dateIn today photo docf now hname hamt hex
    obtain ⟨t0, ht0, hlt⟩ := hex
    simp only [Unified.onAddTx.eq_def]
    split
    · rename_i hcond
      rcases hcond with hc | hc
      · exact absurd hc hname
      · exact absurd hc hamt
    · intro hp
      have hle := (List.pairwise_cons.mp hp).1 t0 ht0
      simp only [Unified.txLe, Bool.or_eq_true, Bool.and_eq_true, decide_eq_true_eq] at hle
      rcases hle with hle | ⟨hle, _⟩
      · rw [strLt_asymm hlt] at hle
        exact Bool.false_ne_true hle
      · exact (strLt_ne hlt) hle.symm
  · intro st nameIn amountIn dateIn today st' hs hup
    rw [Legacy.updateExpense.eq_def] at hup
    split at hup
    · cases hup
      exact hs
    · simp only [] at hup
      split at hup
      · cases hup
        exact hs
      · split at hup
        · exact (JsOutcome.noConfusion hup)
        · cases hup
          exact sortTxsL_sorted _
  · intro st id hs
    exact List.Pairwise.sublist (List.filter_sublist _) hs

/-- Witness for C2: a create dated AFTER everything in the mirror keeps
it sorted, evaluated concretely. -/
theorem C2_sortInvariant_witness :
    Unified.txsSorted
      (Unified.onAddTx appC2 TxType.expense "agua" (some 800) "2024-01-03" "2024-01-05"
        none none 9).txs :=
  C2_sortInvariant.2.1 appC2 TxType.expense "agua" (some 800) "2024-01-03" "2024-01-05"
    none none 9
    ((by decide : List.Pairwise (fun a b => Unified.txLe a b = true) appC2.txs) :
      Unified.txsSorted appC2.txs)
    (by decide) (by decide)

end Gastos

namespace Gastos

/-- C4 counterexample: (i) a date on which only an income transaction
falls DOES contribute a histogram point (of value 0), because the
unified `groupByDate` inserts a key for every transaction; (ii) bar
heights are normalised to the maximum over ALL grouped points, not the
visible ones: with 15 points whose oldest (truncated) point holds the
maximum 9999, the 14 visible bars of value 100 all render at the floor
height 4, where normalising to the visible maximum would render 100. -/
theorem C4_counterexample :
    Unified.groupByDate [txIncOnly] = [("2024-01-01", 0)]
    ∧ Unified.chartMax txs15 = 9999
    ∧ Unified.barHeights txs15 = [4, 4, 4, 4, 4, 4, 4, 4, 4, 4, 4, 4, 4, 4] := by
  refine ⟨by decide, by decide, by decide⟩

/-- C4 (amended): the histogram groups ALL transactions by date (a date
with only income transactions contributes a point of value 0), sums only
expense amounts per date, sorts ascending by date, exposes at most the
most recent 14 grouped points, and normalises bar heights to
`max(1, ·)` of the maximum over ALL grouped values (not only the visible
ones); Scenario B holds as stated. -/
theorem C4_histogram (txs : List Unified.Tx) :
    (Unified.groupByDate txs).Pairwise (fun p q => strLt p.1 q.1 = true)
    ∧ (∀ d v, (d, v) ∈ Unified.groupByDate txs ↔
        (d ∈ txs.map Unified.Tx.date ∧ v = sumExpOn txs d))
    ∧ (Unified.last14 txs).length ≤ 14
    ∧ Unified.barHeights txs
        = (Unified.last14 txs).map (fun p => max 4 (jsRoundPct p.2 (Unified.chartMax txs)))
    ∧ Unified.groupByDate [txB1, txB2, txB3] = [("2024-01-01", 3000), ("2024-01-02", 3000)] := by
  refine ⟨groupByDate_sorted txs, groupByDate_mem txs, ?_, rfl, by decide⟩
  rw [Unified.last14, List.length_drop]
  omega

/-- Witness for C4: the Scenario B point retrieved through the
membership characterisation. -/
theorem C4_histogram_witness :
    ("2024-01-01", 3000) ∈ Unified.groupByDate [txB1, txB2, txB3] :=
  ((C4_histogram [txB1, txB2, txB3]).2.1 "2024-01-01" 3000).mpr (by decide)

/-- C6: for every anchor date (local year `y`, 0-based month `m`, day
`d`, any UTC offset), the fortnight window is the calendar-aware split of
the current month — `[1st, 15th]` when `d ≤ 15`, else
`[16th, last day of the month]`, both ends inclusive (the end boundary is
the last millisecond of the closing day); Scenario C holds on 2024-03-10
and 2024-03-20. -/
theorem C6_fortnight (y m d off : Int) (hm0 : 0 ≤ m) (hm : m ≤ 11) (_hd1 : 1 ≤ d)
    (_hd2 : d ≤ monthLen y (m + 1)) :
    ((Unified.ranges y m d off).fortnight =
      if d ≤ 15 then (dayStartTs y (m + 1) 1 off, dayStartTs y (m + 1) 15 off + 86399999)
      else (dayStartTs y (m + 1) 16 off,
            dayStartTs y (m + 1) (monthLen y (m + 1)) off + 86399999))
    ∧ (Unified.ranges 2024 2 10 off).fortnight
        = (dayStartTs 2024 3 1 off, dayStartTs 2024 3 15 off + 86399999)
    ∧ (Unified.ranges 2024 2 20 off).fortnight
        = (dayStartTs 2024 3 16 off, dayStartTs 2024 3 31 off + 86399999) := by
  refine ⟨?_, ?_, ?_⟩
  · simp only [Unified.ranges]
    by_cases hd : d ≤ 15
    · rw [if_pos hd, if_pos hd, Prod.mk.injEq]
      constructor
      · rw [localTs, dayStartTs, jsDays_eq y m 1 hm0 hm]
        ring
      · rw [localTs, dayStartTs, jsDays_eq y m 15 hm0 hm]
        ring
    · rw [if_neg hd, if_neg hd, Prod.mk.injEq]
      constructor
      · rw [localTs, dayStartTs, jsDays_eq y m 16 hm0 hm]
        ring
      · rw [localTs, dayStartTs, jsDays_month_end y m hm0 hm]
        ring
  · simp only [Unified.ranges, localTs, jsDays, dayStartTs, daysFromCivil, civilYear]
    norm_num
    omega
  · simp only [Unified.ranges, localTs, jsDays, dayStartTs, daysFromCivil, civilYear]
    norm_num
    omega

/-- Witness for C6: the second-half window of March 2024 at offset 0. -/
theorem C6_fortnight_witness :
    (Unified.ranges 2024 2 20 0).fortnight
      = (dayStartTs 2024 3 16 0, dayStartTs 2024 3 31 0 + 86399999) :=
  (C6_fortnight 2024 2 20 0 (by norm_num) (by norm_num) (by norm_num) (by decide)).2.2

/-- C3, evaluated at the failing input: in a west-of-UTC environment
(UTC offset −180 min = −10800000 ms, the es-CL summer offset), an
expense dated the current LOCAL calendar day 2024-03-10 is NOT counted
by the `today` period sum — `new Date("2024-03-10")` is UTC midnight,
which lies before the locally-constructed start-of-day boundary.  At
offset 0 the very same transaction IS counted, pinpointing the
divergence to the mixed UTC/local date handling. -/
theorem C3_todayExcluded :
    Unified.sumRange [txToday] ((Unified.ranges 2024 2 10 (-10800000)).today) = 0
    ∧ txToday.type = TxType.expense ∧ txToday.amount = 100 ∧ txToday.date = "2024-03-10"
    ∧ Unified.sumRange [txToday] ((Unified.ranges 2024 2 10 0).today) = 100 := by
  refine ⟨by decide, rfl, rfl, rfl, by decide⟩

/-- C8 counterexample: an update referencing a staged id (5) that is
absent from the store does NOT complete as a no-op — it throws a
`TypeError` (the fetched record is `undefined` and the field assignment
dereferences it). -/
theorem C8_counterexample :
    Unified.updateTx appC8 TxType.expense "pan" (some 7) "2024-01-02" "2024-01-02" none none 9
      = JsOutcome.thrown "TypeError" := by decide

/-- C8 (amended): an update with no staged edit id is a no-op, and a
delete referencing a missing id completes as a no-op; but an update
referencing a missing id throws a `TypeError` before performing any
write, instead of completing as a no-op. -/
theorem C8_missingIds :
    (∀ (st : Unified.App) (typ : TxType) (nameIn : String) (amountIn : Option ℚ)
        (dateIn today : String) (photo docf : Option FileIn) (now : Nat),
        st.editId = none →
        Unified.updateTx st typ nameIn amountIn dateIn today photo docf now = JsOutcome.ok st)
    ∧ (∀ (st : Unified.App) (typ : TxType) (nameIn : String) (amountIn : Option ℚ)
        (dateIn today : String) (photo docf : Option FileIn) (now : Nat) (eid : Nat),
        st.editId = some eid → st.txStore.get eid = none →
        jsTrim nameIn ≠ "" → parseAmount amountIn ≠ 0 →
        Unified.updateTx st typ nameIn amountIn dateIn today photo docf now
          = JsOutcome.thrown "TypeError")
    ∧ (∀ (st : Legacy.App) (id : Nat),
        (∀ e ∈ st.store.records, e.id ≠ id) → (∀ e ∈ st.expenses, e.id ≠ id) →
        Legacy.deleteExpense st id = st) := by
  refine ⟨?_, ?_, ?_⟩
  · intro st typ nameIn amountIn dateIn today photo docf now h
    rw [Unified.updateTx.eq_def, h]
  · intro st typ nameIn amountIn dateIn today photo docf now eid heid hget hname hamt
    rw [Unified.updateTx.eq_def, heid]
    simp only []
    rw [if_neg (not_or.mpr ⟨hname, hamt⟩), hget]
  · intro st id h1 h2
    have hr : st.store.records.filter (fun t => decide (t.id ≠ id)) = st.store.records :=
      List.filter_eq_self.mpr (fun e he => decide_eq_true (h1 e he))
    have he2 : st.expenses.filter (fun e => decide (e.id ≠ id)) = st.expenses :=
      List.filter_eq_self.mpr (fun e he => decide_eq_true (h2 e he))
    simp only [Legacy.deleteExpense, Legacy.TxStore.del, hr, he2]

/-- Witness for C8: the unset-edit-id no-op and a delete of an absent
id, evaluated concretely. -/
theorem C8_missingIds_witness :
    Unified.updateTx appC8b TxType.expense "pan" (some 7) "2024-01-02" "2024-01-02" none none 9
        = JsOutcome.ok appC8b
    ∧ Legacy.deleteExpense appC8L 5 = appC8L :=
  ⟨C8_missingIds.1 appC8b TxType.expense "pan" (some 7) "2024-01-02" "2024-01-02" none none 9
      rfl,
   C8_missingIds.2.2 appC8L 5 (by decide) (by decide)⟩

end Gastos
